import Mathlib

/-
Verification of the scratch-memory (SRAM) access layer contract of the
SparkFun DS3234 RTC Arduino library, as exercised by the repository demo
`src/examples/DS3234_RTC_SRAM_Demo/DS3234_RTC_SRAM_Demo.ino`.

The demo calls `rtc.writeToSRAM` / `rtc.readFromSRAM` (single-byte, buffer
and templated overloads) of the driver library. The driver sources are not
part of this tree, so the access layer is modelled from the specification:
a 256-cell byte memory addressed by an 8-bit offset, multi-byte operations
incrementing the address once per byte with the natural 8-bit modulo wrap,
typed operations serializing fixed-width scalars to their native
(little-endian AVR) byte layout and reusing the multi-byte operations, and
a hardened variant reporting `OutOfRangeAddress` when an operation would
run past the 256-byte region.
-/

namespace DS3234

/-- The scratch memory region: a total map from cell index to stored byte.
Only indices `0..255` are cells of the region; the access layer reduces
every address modulo 256 before touching the map, so indices ≥ 256 are
never read or written. -/
def Mem : Type := Nat → Nat

/-- Modelled from the spec: `writeByte(address, value)` (the single-byte
`writeToSRAM` overload, absent from this tree). Writes one byte `value`
to `address`; the address is an 8-bit value, so it is reduced modulo 256,
and the stored value is truncated to a byte. -/
def writeByte (m : Mem) (a v : Nat) : Mem :=
  fun x => if x = a % 256 then v % 256 else m x

/-- Modelled from the spec: `readByte(address)` (the single-byte
`readFromSRAM` overload, absent from this tree) viewed as one complete bus
transaction: it returns the byte stored at the 8-bit address together with
the memory region after the transaction, which is the region unchanged. -/
def readByteOp (m : Mem) (a : Nat) : Nat × Mem :=
  (m (a % 256), m)

/-- The value returned by the `readByte` transaction. -/
def readByte (m : Mem) (a : Nat) : Nat :=
  (readByteOp m a).1

/-- Modelled from the spec: `writeBytes(address, buffer, length)` (the
buffer `writeToSRAM` overload, absent from this tree). Writes the buffer
bytes to consecutive addresses, incrementing the 8-bit address once per
byte (natural modulo-256 wrap). The buffer carries its own length. -/
def writeBytes : Mem → Nat → List Nat → Mem
  | m, _, [] => m
  | m, a, v :: vs => writeBytes (writeByte m a v) ((a + 1) % 256) vs

/-- Modelled from the spec: `readBytes(address, buffer, length)` (the
buffer `readFromSRAM` overload, absent from this tree). Reads `n`
consecutive bytes starting at `address`, incrementing the 8-bit address
once per byte, returned as a list instead of filling a raw buffer. -/
def readBytes : Mem → Nat → Nat → List Nat
  | _, _, 0 => []
  | m, a, n + 1 => readByte m a :: readBytes m ((a + 1) % 256) n

/-- Little-endian byte serialization of an unsigned 16-bit value, the
native in-memory layout on the AVR hosts the demo targets. -/
def encodeU16 (v : Nat) : List Nat :=
  [v % 256, v / 256 % 256]

/-- Little-endian byte deserialization of an unsigned 16-bit value. -/
def decodeU16 (bs : List Nat) : Nat :=
  bs.getD 0 0 + 256 * bs.getD 1 0

/-- Little-endian byte serialization of an unsigned 32-bit value. -/
def encodeU32 (v : Nat) : List Nat :=
  [v % 256, v / 256 % 256, v / 65536 % 256, v / 16777216 % 256]

/-- Little-endian byte deserialization of an unsigned 32-bit value. -/
def decodeU32 (bs : List Nat) : Nat :=
  bs.getD 0 0 + 256 * bs.getD 1 0 + 65536 * bs.getD 2 0 + 16777216 * bs.getD 3 0

/-- Two's-complement little-endian serialization of a signed 32-bit
value, the native in-memory layout of `int32_t` on the demo hosts. -/
def encodeI32 (v : Int) : List Nat :=
  encodeU32 (v % 4294967296).toNat

/-- Two's-complement little-endian deserialization of a signed 32-bit
value. -/
def decodeI32 (bs : List Nat) : Int :=
  let u := decodeU32 bs
  if u < 2147483648 then (u : Int) else (u : Int) - 4294967296

/-- Modelled from the spec: `writeTyped<uint16_t>` (the templated
`writeToSRAM`, absent from this tree): serializes the value into its
native byte representation and reuses `writeBytes`. -/
def writeTypedU16 (m : Mem) (a v : Nat) : Mem :=
  writeBytes m a (encodeU16 v)

/-- Modelled from the spec: `readTyped<uint16_t>` (the templated
`readFromSRAM`, absent from this tree): reuses `readBytes` for
`sizeof(uint16_t)` bytes and reinterprets them. -/
def readTypedU16 (m : Mem) (a : Nat) : Nat :=
  decodeU16 (readBytes m a 2)

/-- Modelled from the spec: `writeTyped<int32_t>`: serializes the value
into its native byte representation and reuses `writeBytes`. -/
def writeTypedI32 (m : Mem) (a : Nat) (v : Int) : Mem :=
  writeBytes m a (encodeI32 v)

/-- Modelled from the spec: `readTyped<int32_t>`: reuses `readBytes` for
`sizeof(int32_t)` bytes and reinterprets them. -/
def readTypedI32 (m : Mem) (a : Nat) : Int :=
  decodeI32 (readBytes m a 4)

/-- Modelled from the spec: `writeTyped<float>`, with the float value
represented by its 32-bit IEEE-754 pattern: serializes the pattern into
its native byte representation and reuses `writeBytes`. -/
def writeTypedF32 (m : Mem) (a bits : Nat) : Mem :=
  writeBytes m a (encodeU32 bits)

/-- Modelled from the spec: `readTyped<float>`, returning the 32-bit
IEEE-754 pattern of the value read: reuses `readBytes` for four bytes. -/
def readTypedF32 (m : Mem) (a : Nat) : Nat :=
  decodeU32 (readBytes m a 4)

/-- Modelled from the spec: the error taxonomy of the hardened access
layer (section 7 of the specification; the hardened layer does not exist
in this tree). -/
inductive SramError where
  | OutOfRangeAddress
  | BufferTooSmall
  | BusTransferFailure
deriving DecidableEq, Repr

/-- Modelled from the spec: the hardened `writeBytes`, returning an
explicit result together with the memory after the call. When the
operation would run past the 256-byte region it reports
`OutOfRangeAddress` and leaves the region untouched. -/
def writeBytesChecked (m : Mem) (a : Nat) (buf : List Nat) :
    Except SramError Unit × Mem :=
  if 256 < a + buf.length then (.error .OutOfRangeAddress, m)
  else (.ok (), writeBytes m a buf)

/-- Modelled from the spec: the hardened `readBytes`, returning an
explicit result together with the memory after the call. When the
operation would run past the 256-byte region it reports
`OutOfRangeAddress`; the region is never modified by a read. -/
def readBytesChecked (m : Mem) (a n : Nat) :
    Except SramError (List Nat) × Mem :=
  if 256 < a + n then (.error .OutOfRangeAddress, m)
  else (.ok (readBytes m a n), m)

/-- Modelled from the spec: the hardened `writeTyped<uint16_t>`, reusing
the hardened `writeBytes` on the serialized value. -/
def writeTypedU16Checked (m : Mem) (a v : Nat) :
    Except SramError Unit × Mem :=
  writeBytesChecked m a (encodeU16 v)

/-- Modelled from the spec: the hardened `readTyped<uint16_t>`, reusing
the hardened `readBytes` for `sizeof(uint16_t)` bytes. -/
def readTypedU16Checked (m : Mem) (a : Nat) :
    Except SramError Nat × Mem :=
  match readBytesChecked m a 2 with
  | (.error e, m2) => (.error e, m2)
  | (.ok bs, m2) => (.ok (decodeU16 bs), m2)

/-- Modelled from the spec: the hardened `writeTyped<int32_t>`. -/
def writeTypedI32Checked (m : Mem) (a : Nat) (v : Int) :
    Except SramError Unit × Mem :=
  writeBytesChecked m a (encodeI32 v)

/-- Modelled from the spec: the hardened `readTyped<int32_t>`. -/
def readTypedI32Checked (m : Mem) (a : Nat) :
    Except SramError Int × Mem :=
  match readBytesChecked m a 4 with
  | (.error e, m2) => (.error e, m2)
  | (.ok bs, m2) => (.ok (decodeI32 bs), m2)

/-- Modelled from the spec: the hardened `writeTyped<float>` on the
IEEE-754 bit pattern of the value. -/
def writeTypedF32Checked (m : Mem) (a bits : Nat) :
    Except SramError Unit × Mem :=
  writeBytesChecked m a (encodeU32 bits)

/-- Modelled from the spec: the hardened `readTyped<float>`, returning
the IEEE-754 bit pattern read. -/
def readTypedF32Checked (m : Mem) (a : Nat) :
    Except SramError Nat × Mem :=
  match readBytesChecked m a 4 with
  | (.error e, m2) => (.error e, m2)
  | (.ok bs, m2) => (.ok (decodeU32 bs), m2)

/-- A 32-bit IEEE-754 pattern is a NaN when its exponent field is all
ones and its mantissa field is nonzero. -/
def isNaNBits (u : Nat) : Bool :=
  decide (u / 8388608 % 256 = 255) && decide (u % 8388608 ≠ 0)

/-- A 32-bit IEEE-754 pattern denotes a zero (of either sign) when all
bits below the sign bit are clear. -/
def isZeroBits (u : Nat) : Bool :=
  decide (u % 2147483648 = 0)

/-- Modelled from the spec: IEEE-754 equality (the C `==` operator on
`float`) expressed on 32-bit patterns below 2^32: never true for a NaN
operand, true for any two zeros, and otherwise exactly pattern
equality. -/
def floatEqBits (u v : Nat) : Bool :=
  if isNaNBits u || isNaNBits v then false
  else if isZeroBits u && isZeroBits v then true
  else decide (u = v)

/-- The IEEE-754 single-precision pattern of the demo constant
`float_data = 3.14159265358979` (pi rounded to the nearest float),
0x40490FDB. -/
def piF32Bits : Nat := 1078530011

/-- The demo SRAM address `sram_address = 161` (0xA1). -/
def sram_address : Nat := 161

/-- The demo write buffer `write_buffer = {101, 102, 103, 104, 199, 255}`. -/
def write_buffer : List Nat := [101, 102, 103, 104, 199, 255]

/-- The sequence of SRAM operations performed by the demo `setup()`,
routed through the hardened access layer so that the out-of-range branch
is visible: write byte 42 at 161, read it back, write the 6-byte buffer
at 161, read 6 bytes back, then write/read a `uint16_t`, an `int32_t`
and a `float` at 161. Returns the final memory unless some operation
reports an error. -/
def demoChecked (m0 : Mem) : Except SramError Mem :=
  match writeBytesChecked m0 sram_address [42] with
  | (.error e, _) => .error e
  | (.ok _, m1) =>
  match readBytesChecked m1 sram_address 1 with
  | (.error e, _) => .error e
  | (.ok _, m2) =>
  match writeBytesChecked m2 sram_address write_buffer with
  | (.error e, _) => .error e
  | (.ok _, m3) =>
  match readBytesChecked m3 sram_address 6 with
  | (.error e, _) => .error e
  | (.ok _, m4) =>
  match writeTypedU16Checked m4 sram_address 32769 with
  | (.error e, _) => .error e
  | (.ok _, m5) =>
  match readTypedU16Checked m5 sram_address with
  | (.error e, _) => .error e
  | (.ok _, m6) =>
  match writeTypedI32Checked m6 sram_address (-128653) with
  | (.error e, _) => .error e
  | (.ok _, m7) =>
  match readTypedI32Checked m7 sram_address with
  | (.error e, _) => .error e
  | (.ok _, m8) =>
  match writeTypedF32Checked m8 sram_address piF32Bits with
  | (.error e, _) => .error e
  | (.ok _, m9) =>
  match readTypedF32Checked m9 sram_address with
  | (.error e, _) => .error e
  | (.ok _, m10) => .ok m10

/-- The three equality comparisons of the demo, in program order over the
memory states the demo builds: the read-back `uint16_t` against 32769,
the read-back `int32_t` against -128653, and the read-back `float`
against the written pi pattern under IEEE-754 equality. -/
def demoComparisons (m0 : Mem) : Bool × Bool × Bool :=
  let m1 := writeByte m0 sram_address 42
  let m2 := writeBytes m1 sram_address write_buffer
  let m3 := writeTypedU16 m2 sram_address 32769
  let c1 := decide (readTypedU16 m3 sram_address = 32769)
  let m4 := writeTypedI32 m3 sram_address (-128653)
  let c2 := decide (readTypedI32 m4 sram_address = -128653)
  let m5 := writeTypedF32 m4 sram_address piF32Bits
  let c3 := floatEqBits piF32Bits (readTypedF32 m5 sram_address)
  (c1, c2, c3)

theorem writeByte_same (m : Mem) (a v : Nat) :
    writeByte m a v (a % 256) = v % 256 := by
  simp [writeByte]

theorem writeByte_other (m : Mem) (a v x : Nat) (hx : x ≠ a % 256) :
    writeByte m a v x = m x := by
  simp [writeByte, hx]

theorem writeBytes_cons (m : Mem) (a v : Nat) (vs : List Nat) :
    writeBytes m a (v :: vs) = writeBytes (writeByte m a v) ((a + 1) % 256) vs :=
  rfl

theorem readBytes_succ (m : Mem) (a n : Nat) :
    readBytes m a (n + 1) = readByte m a :: readBytes m ((a + 1) % 256) n :=
  rfl

/-- Frame property of `writeBytes`: a cell whose index differs modulo 256
from every address the operation touches is left unchanged. -/
theorem writeBytes_frame (vs : List Nat) (m : Mem) (a x : Nat)
    (h : ∀ j, j < vs.length → (a + j) % 256 ≠ x % 256) :
    writeBytes m a vs x = m x := by
  induction vs generalizing m a with
  | nil => rfl
  | cons v vs ih =>
    have h0 : a % 256 ≠ x % 256 := by
      have := h 0 (by simp)
      simpa using this
    have htail : ∀ j, j < vs.length → ((a + 1) % 256 + j) % 256 ≠ x % 256 := by
      intro j hj
      rw [Nat.mod_add_mod]
      have := h (j + 1) (by simp; omega)
      omega
    rw [writeBytes_cons, ih (writeByte m a v) ((a + 1) % 256) htail]
    exact writeByte_other m a v x (by intro hx; apply h0; omega)

/-- Round-trip of the multi-byte operations inside the region: reading
back the length of a freshly written buffer reproduces it exactly. -/
theorem readBytes_writeBytes (vs : List Nat) (m : Mem) (a : Nat)
    (hlen : a + vs.length ≤ 256) (hv : ∀ v ∈ vs, v < 256) :
    readBytes (writeBytes m a vs) a vs.length = vs := by
  induction vs generalizing m a with
  | nil => rfl
  | cons v vs ih =>
    have hlen' : a + (vs.length + 1) ≤ 256 := by simpa using hlen
    have hhead : readBytes (writeBytes m a (v :: vs)) a (vs.length + 1) =
        readByte (writeBytes (writeByte m a v) ((a + 1) % 256) vs) a ::
        readBytes (writeBytes (writeByte m a v) ((a + 1) % 256) vs)
          ((a + 1) % 256) vs.length := by
      rw [writeBytes_cons, readBytes_succ]
    have hframe : ∀ j, j < vs.length →
        ((a + 1) % 256 + j) % 256 ≠ (a % 256) % 256 := by
      intro j hj
      rw [Nat.mod_add_mod]
      omega
    have hbyte : readByte (writeBytes (writeByte m a v) ((a + 1) % 256) vs) a = v := by
      show writeBytes (writeByte m a v) ((a + 1) % 256) vs (a % 256) = v
      rw [writeBytes_frame vs _ _ _ hframe, writeByte_same]
      exact Nat.mod_eq_of_lt (hv v (by simp))
    have htail : readBytes (writeBytes (writeByte m a v) ((a + 1) % 256) vs)
        ((a + 1) % 256) vs.length = vs := by
      refine ih (writeByte m a v) ((a + 1) % 256) (by omega) ?_
      intro u hu
      exact hv u (by simp [hu])
    show readBytes (writeBytes m a (v :: vs)) a (vs.length + 1) = v :: vs
    rw [hhead, hbyte, htail]

/-- The byte written at position `i` of a multi-byte write of at most 256
bytes lands at the start address incremented `i` times modulo 256. -/
theorem writeBytes_apply (vs : List Nat) (m : Mem) (a i : Nat)
    (hn : vs.length ≤ 256) (hi : i < vs.length) :
    writeBytes m a vs ((a + i) % 256) = vs.get ⟨i, hi⟩ % 256 := by
  induction vs generalizing m a i with
  | nil => exact absurd hi (by simp)
  | cons v vs ih =>
    match i with
    | 0 =>
      have hframe : ∀ j, j < vs.length →
          ((a + 1) % 256 + j) % 256 ≠ ((a + 0) % 256) % 256 := by
        intro j hj
        rw [Nat.mod_add_mod]
        have hlen : vs.length ≤ 255 := by
          have := hn
          simp at this
          omega
        omega
      rw [writeBytes_cons, writeBytes_frame vs _ _ _ hframe]
      show writeByte m a v ((a + 0) % 256) = v % 256
      rw [Nat.add_zero, writeByte_same]
    | k + 1 =>
      have hk : k < vs.length := by
        have := hi
        simp at this
        omega
      have hrw : (a + (k + 1)) % 256 = ((a + 1) % 256 + k) % 256 := by
        rw [Nat.mod_add_mod]
        omega
      rw [writeBytes_cons, hrw]
      exact ih (writeByte m a v) ((a + 1) % 256) k (by simp at hn; omega) hk

/-- The byte at position `i` of a multi-byte read comes from the start
address incremented `i` times modulo 256. -/
theorem readBytes_getElem (m : Mem) (a n i : Nat) (hi : i < n) :
    (readBytes m a n)[i]? = some (m ((a + i) % 256)) := by
  induction n generalizing a i with
  | zero => omega
  | succ n ih =>
    match i with
    | 0 =>
      rw [readBytes_succ, List.getElem?_cons_zero]
      simp [readByte, readByteOp]
    | k + 1 =>
      have hrw : ((a + 1) % 256 + k) % 256 = (a + (k + 1)) % 256 := by
        rw [Nat.mod_add_mod]
        omega
      rw [readBytes_succ, List.getElem?_cons_succ,
        ih ((a + 1) % 256) k (by omega), hrw]

theorem decodeU16_encodeU16 (v : Nat) (hv : v < 65536) :
    decodeU16 (encodeU16 v) = v := by
  simp [decodeU16, encodeU16]
  omega

theorem decodeU32_encodeU32 (v : Nat) (hv : v < 4294967296) :
    decodeU32 (encodeU32 v) = v := by
  simp [decodeU32, encodeU32]
  omega

theorem decodeI32_encodeI32 (v : Int) (hl : -2147483648 ≤ v)
    (hu : v < 2147483648) : decodeI32 (encodeI32 v) = v := by
  have h0 : (0 : Int) ≤ v % 4294967296 := Int.emod_nonneg v (by norm_num)
  have h1 : v % 4294967296 < 4294967296 := Int.emod_lt_of_pos v (by norm_num)
  have hu32 : (v % 4294967296).toNat < 4294967296 := by omega
  have hcast : ((v % 4294967296).toNat : Int) = v % 4294967296 :=
    Int.toNat_of_nonneg h0
  rw [encodeI32, decodeI32]
  simp only [decodeU32_encodeU32 _ hu32]
  split <;> omega

theorem encodeU16_bytes (v : Nat) : ∀ b ∈ encodeU16 v, b < 256 := by
  intro b hb
  simp [encodeU16] at hb
  rcases hb with h | h <;> omega

theorem encodeU32_bytes (v : Nat) : ∀ b ∈ encodeU32 v, b < 256 := by
  intro b hb
  simp [encodeU32] at hb
  rcases hb with h | h | h | h <;> omega

theorem encodeI32_bytes (v : Int) : ∀ b ∈ encodeI32 v, b < 256 :=
  fun b hb => encodeU32_bytes _ b hb

theorem encodeU16_length (v : Nat) : (encodeU16 v).length = 2 := rfl

theorem encodeU32_length (v : Nat) : (encodeU32 v).length = 4 := rfl

theorem encodeI32_length (v : Int) : (encodeI32 v).length = 4 := rfl

/-- Round-trip of the typed `uint16_t` operations inside the region. -/
theorem typedU16_roundtrip (m : Mem) (a v : Nat) (ha : a + 2 ≤ 256)
    (hv : v < 65536) : readTypedU16 (writeTypedU16 m a v) a = v := by
  rw [readTypedU16, writeTypedU16]
  have h := readBytes_writeBytes (encodeU16 v) m a
    (by rw [encodeU16_length]; omega) (encodeU16_bytes v)
  rw [encodeU16_length] at h
  rw [h, decodeU16_encodeU16 _ hv]

/-- Round-trip of the typed `int32_t` operations inside the region. -/
theorem typedI32_roundtrip (m : Mem) (a : Nat) (v : Int)
    (ha : a + 4 ≤ 256) (hl : -2147483648 ≤ v) (hu : v < 2147483648) :
    readTypedI32 (writeTypedI32 m a v) a = v := by
  rw [readTypedI32, writeTypedI32]
  have h := readBytes_writeBytes (encodeI32 v) m a
    (by rw [encodeI32_length]; omega) (encodeI32_bytes v)
  rw [encodeI32_length] at h
  rw [h, decodeI32_encodeI32 _ hl hu]

/-- Round-trip of the typed `float` operations inside the region, on the
IEEE-754 bit pattern. -/
theorem typedF32_roundtrip (m : Mem) (a bits : Nat) (ha : a + 4 ≤ 256)
    (hb : bits < 4294967296) :
    readTypedF32 (writeTypedF32 m a bits) a = bits := by
  rw [readTypedF32, writeTypedF32]
  have h := readBytes_writeBytes (encodeU32 bits) m a
    (by rw [encodeU32_length]; omega) (encodeU32_bytes bits)
  rw [encodeU32_length] at h
  rw [h, decodeU32_encodeU32 _ hb]

/-- C1: for every address `a` in `[0,255]` and byte value `v` in
`[0,255]`, `writeByte(a, v)` followed by `readByte(a)` returns `v`. -/
theorem claim1_byte_roundtrip (m : Mem) (a v : Nat) (ha : a ≤ 255)
    (hv : v ≤ 255) : readByte (writeByte m a v) a = v := by
  show writeByte m a v (a % 256) = v
  rw [writeByte_same]
  omega

/-- Witness for C1: writing byte 42 at address 161 and reading address
161 back yields 42, as in the demo. -/
theorem claim1_byte_roundtrip_witness :
    161 ≤ 255 ∧ 42 ≤ 255 ∧
    readByte (writeByte (fun _ => 0) 161 42) 161 = 42 :=
  ⟨by decide, by decide,
    claim1_byte_roundtrip (fun _ => 0) 161 42 (by decide) (by decide)⟩

/-- C2: for every address `a` and buffer of bytes `vs` with
`a + vs.length ≤ 256`, writing the buffer at `a` and reading back
`vs.length` bytes from `a` reproduces the buffer exactly and in order. -/
theorem claim2_buffer_roundtrip (m : Mem) (a : Nat) (vs : List Nat)
    (hlen : a + vs.length ≤ 256) (hv : ∀ v ∈ vs, v < 256) :
    readBytes (writeBytes m a vs) a vs.length = vs :=
  readBytes_writeBytes vs m a hlen hv

/-- Witness for C2: writing `[101,102,103,104,199,255]` at address 161
and reading 6 bytes back from 161 yields the same sequence, as in the
demo. -/
theorem claim2_buffer_roundtrip_witness :
    readBytes (writeBytes (fun _ => 0) 161 [101, 102, 103, 104, 199, 255])
      161 6 = [101, 102, 103, 104, 199, 255] := by
  have h := claim2_buffer_roundtrip (fun _ => 0) 161
    [101, 102, 103, 104, 199, 255] (by decide) (by decide)
  exact h

/-- C3: typed round-trip for the fixed-width scalar types the demo
instantiates: an unsigned 16-bit value and a signed 32-bit value written
at an in-range address read back equal to the originals, the encode and
decode sides sharing the same little-endian layout. -/
theorem claim3_typed_roundtrip (m : Mem) (a v16 : Nat) (v32 : Int)
    (ha16 : a + 2 ≤ 256) (hv16 : v16 < 65536) (ha32 : a + 4 ≤ 256)
    (hl32 : -2147483648 ≤ v32) (hu32 : v32 < 2147483648) :
    readTypedU16 (writeTypedU16 m a v16) a = v16 ∧
    readTypedI32 (writeTypedI32 m a v32) a = v32 :=
  ⟨typedU16_roundtrip m a v16 ha16 hv16,
    typedI32_roundtrip m a v32 ha32 hl32 hu32⟩

/-- Witness for C3: the demo values, `uint16_t` 32769 and `int32_t`
-128653 at address 161, both read back unchanged. -/
theorem claim3_typed_roundtrip_witness :
    readTypedU16 (writeTypedU16 (fun _ => 0) 161 32769) 161 = 32769 ∧
    readTypedI32 (writeTypedI32 (fun _ => 0) 161 (-128653)) 161 = -128653 :=
  claim3_typed_roundtrip (fun _ => 0) 161 32769 (-128653) (by decide)
    (by decide) (by decide) (by decide) (by decide)

/-- C4: every multi-byte or typed operation whose address range crosses
the 256-byte boundary reports `OutOfRangeAddress` to its caller and
leaves the memory region exactly as it was. -/
theorem claim4_out_of_range (m : Mem) (a n v bits : Nat)
    (buf : List Nat) (v32 : Int) (hw : 256 < a + buf.length)
    (hr : 256 < a + n) (h2 : 256 < a + 2) (h4 : 256 < a + 4) :
    writeBytesChecked m a buf = (.error .OutOfRangeAddress, m) ∧
    readBytesChecked m a n = (.error .OutOfRangeAddress, m) ∧
    writeTypedU16Checked m a v = (.error .OutOfRangeAddress, m) ∧
    readTypedU16Checked m a = (.error .OutOfRangeAddress, m) ∧
    writeTypedI32Checked m a v32 = (.error .OutOfRangeAddress, m) ∧
    readTypedI32Checked m a = (.error .OutOfRangeAddress, m) ∧
    writeTypedF32Checked m a bits = (.error .OutOfRangeAddress, m) ∧
    readTypedF32Checked m a = (.error .OutOfRangeAddress, m) := by
  refine ⟨?_, ?_, ?_, ?_, ?_, ?_, ?_, ?_⟩
  · rw [writeBytesChecked, if_pos hw]
  · rw [readBytesChecked, if_pos hr]
  · rw [writeTypedU16Checked, writeBytesChecked, encodeU16_length,
      if_pos h2]
  · simp only [readTypedU16Checked, readBytesChecked, if_pos h2]
  · rw [writeTypedI32Checked, writeBytesChecked, encodeI32_length,
      if_pos h4]
  · simp only [readTypedI32Checked, readBytesChecked, if_pos h4]
  · rw [writeTypedF32Checked, writeBytesChecked, encodeU32_length,
      if_pos h4]
  · simp only [readTypedF32Checked, readBytesChecked, if_pos h4]

/-- Witness for C4: at start address 255 a 2-byte buffer write, a 2-byte
read, and the write and read of each typed operation (`uint16_t`,
`int32_t`, `float`) all cross the boundary and are all rejected with the
memory unchanged. -/
theorem claim4_out_of_range_witness :
    writeBytesChecked (fun _ => 0) 255 [1, 2] =
      (.error .OutOfRangeAddress, fun _ => 0) ∧
    readBytesChecked (fun _ => 0) 255 2 =
      (.error .OutOfRangeAddress, fun _ => 0) ∧
    writeTypedU16Checked (fun _ => 0) 255 7 =
      (.error .OutOfRangeAddress, fun _ => 0) ∧
    readTypedU16Checked (fun _ => 0) 255 =
      (.error .OutOfRangeAddress, fun _ => 0) ∧
    writeTypedI32Checked (fun _ => 0) 255 9 =
      (.error .OutOfRangeAddress, fun _ => 0) ∧
    readTypedI32Checked (fun _ => 0) 255 =
      (.error .OutOfRangeAddress, fun _ => 0) ∧
    writeTypedF32Checked (fun _ => 0) 255 11 =
      (.error .OutOfRangeAddress, fun _ => 0) ∧
    readTypedF32Checked (fun _ => 0) 255 =
      (.error .OutOfRangeAddress, fun _ => 0) :=
  claim4_out_of_range (fun _ => 0) 255 2 7 11 [1, 2] 9 (by decide)
    (by decide) (by decide) (by decide)

/-- C5: in a multi-byte write of at most 256 bytes, the byte at position
`i` lands at the start address incremented `i` times, taken modulo 256;
and the byte at position `j` of a multi-byte read is read from the start
address incremented `j` times (the single-byte read itself reducing the
address modulo 256). -/
theorem claim5_address_increment (m : Mem) (a i j n : Nat)
    (vs : List Nat) (hn : vs.length ≤ 256) (hi : i < vs.length)
    (hv : ∀ v ∈ vs, v < 256) (hj : j < n) :
    writeBytes m a vs ((a + i) % 256) = vs.get ⟨i, hi⟩ ∧
    (readBytes m a n)[j]? = some (readByte m (a + j)) := by
  constructor
  · rw [writeBytes_apply vs m a i hn hi]
    exact Nat.mod_eq_of_lt (hv _ (vs.get_mem i hi))
  · exact readBytes_getElem m a n j hj

/-- Witness for C5: writing `[7,8,9]` at address 254 places the byte at
position 2 into cell `(254+2) % 256 = 0` (the 8-bit wrap), and position 2
of a 3-byte read from 254 comes from cell 0. -/
theorem claim5_address_increment_witness :
    writeBytes (fun x => x) 254 [7, 8, 9] 0 = 9 ∧
    (readBytes (fun x => x) 254 3)[2]? = some 0 := by
  have h := claim5_address_increment (fun x => x) 254 2 2 3 [7, 8, 9]
    (by decide) (by decide) (by decide) (by decide)
  exact ⟨by simpa using h.1, by simpa using h.2⟩

/-- C6: each typed operation is the composition of the byte-layout
encode/decode with the corresponding multi-byte operation, and the
serialization unfolds to the little-endian native layout, one byte per
incremented address. -/
theorem claim6_typed_composition (m : Mem) (a v16 : Nat) (v32 : Int)
    (bits : Nat) :
    writeTypedU16 m a v16 = writeBytes m a (encodeU16 v16) ∧
    readTypedU16 m a = decodeU16 (readBytes m a 2) ∧
    writeTypedI32 m a v32 = writeBytes m a (encodeI32 v32) ∧
    readTypedI32 m a = decodeI32 (readBytes m a 4) ∧
    writeTypedF32 m a bits = writeBytes m a (encodeU32 bits) ∧
    readTypedF32 m a = decodeU32 (readBytes m a 4) ∧
    writeTypedU16 m a v16 =
      writeByte (writeByte m a (v16 % 256)) ((a + 1) % 256)
        (v16 / 256 % 256) ∧
    readTypedU16 m a = readByte m a + 256 * readByte m ((a + 1) % 256) :=
  ⟨rfl, rfl, rfl, rfl, rfl, rfl, rfl, rfl⟩

/-- C7: `writeByte` mutates at most the one cell it addresses: every
cell of the region at an address other than `a` holds the same value
after the call as before it. -/
theorem claim7_writeByte_frame (m : Mem) (a v b : Nat) (ha : a ≤ 255)
    (hb : b ≤ 255) (hne : b ≠ a) : writeByte m a v b = m b := by
  apply writeByte_other
  omega

/-- Witness for C7: writing at address 161 leaves the neighbouring cell
160 unchanged. -/
theorem claim7_writeByte_frame_witness :
    (160 : Nat) ≠ 161 ∧ writeByte (fun x => x) 161 42 160 = 160 :=
  ⟨by decide,
    claim7_writeByte_frame (fun x => x) 161 42 160 (by decide) (by decide)
      (by decide)⟩

/-- C8: `readByte` returns the byte stored at the addressed cell and the
memory region after the transaction is exactly the region before it. -/
theorem claim8_readByte_pure (m : Mem) (a : Nat) (ha : a ≤ 255) :
    (readByteOp m a).1 = m a ∧ (readByteOp m a).2 = m := by
  constructor
  · show m (a % 256) = m a
    rw [Nat.mod_eq_of_lt (by omega)]
  · rfl

/-- Witness for C8: reading address 161 of the identity-patterned memory
returns its cell value 161 and leaves the memory intact. -/
theorem claim8_readByte_pure_witness :
    (readByteOp (fun x => x) 161).1 = 161 ∧
    (readByteOp (fun x => x) 161).2 = fun x => x :=
  claim8_readByte_pure (fun x => x) 161 (by decide)

/-- C9: every SRAM operation of the demo stays inside the 256-byte
region: the widest access spans addresses 161 through 166 and every
typed access at most 161 through 164, so the hardened out-of-range
branch is unreachable and the whole demo sequence succeeds from any
initial memory. -/
theorem claim9_demo_in_range (m0 : Mem) :
    sram_address + write_buffer.length ≤ 256 ∧
    sram_address + 4 ≤ 256 ∧
    ∃ mf, demoChecked m0 = .ok mf :=
  ⟨by decide, by decide, ⟨_, rfl⟩⟩

/-- C10: each of the demo equality comparisons evaluates to true: the
read-back `uint16_t` equals 32769, the read-back `int32_t` equals
-128653, and the read-back `float` is IEEE-equal to the written pi
constant, whose pattern is reproduced exactly and is not a NaN. -/
theorem claim10_demo_comparisons (m0 : Mem) :
    demoComparisons m0 = (true, true, true) := by
  simp only [demoComparisons]
  rw [typedU16_roundtrip _ sram_address 32769 (by decide) (by decide),
    typedI32_roundtrip _ sram_address (-128653) (by decide) (by decide)
      (by decide),
    typedF32_roundtrip _ sram_address piF32Bits (by decide) (by decide)]
  decide

end DS3234
